import Mathlib

/-!
Verification development for the extension-compatibility core of the
`solarium` browser (`src/electron-app/src/main/ExtensionManager.ts`).

The TypeScript source is shallowly embedded: JavaScript `Map`s and objects
become association lists (insertion-ordered, as JS preserves key order),
partial records become structures of `Option` fields, filesystem and host
primitives become explicit function-valued parameters or state fields, and
code that can throw returns `Except`.  String processing is carried out on
`List Char` so every definition evaluates by kernel reduction.
-/

namespace Solarium

/-! ## JavaScript object model

Association lists play the role of JS objects: insertion order is kept and
keys are unique in every object the program builds. -/

/-- JS property lookup `o[k]` (first binding wins, `none` = `undefined`). -/
def docFind (k : String) : List (String × β) → Option β
  | [] => none
  | (a, b) :: t => if a = k then some b else docFind k t

/-- JS property assignment `o[k] = v`: overwrite in place, else append. -/
def objSet (k : String) (v : β) : List (String × β) → List (String × β)
  | [] => [(k, v)]
  | (a, b) :: t => if a = k then (k, v) :: t else (a, b) :: objSet k v t

/-- JS `delete o[k]`. -/
def objDelete (k : String) : List (String × β) → List (String × β)
  | [] => []
  | (a, b) :: t => if a = k then objDelete k t else (a, b) :: objDelete k t

/-- JS string-or-default `s || d` (the empty string is falsy). -/
def jsOr (o : Option String) (d : String) : String :=
  match o with
  | some s => if s = "" then d else s
  | none => d

/-- Split a char list at the first occurrence of `sep`:
`some (before, after)`, or `none` when `sep` does not occur. -/
def splitFirstSeq (sep : List Char) : List Char → Option (List Char × List Char)
  | [] => if sep.isEmpty then some ([], []) else none
  | c :: t =>
    if sep.isPrefixOf (c :: t) then some ([], (c :: t).drop sep.length)
    else match splitFirstSeq sep t with
      | some (a, b) => some (c :: a, b)
      | none => none

def charLower (c : Char) : Char :=
  if 65 ≤ c.toNat && c.toNat ≤ 90 then Char.ofNat (c.toNat + 32) else c

def isAlphaCh (c : Char) : Bool :=
  (65 ≤ c.toNat && c.toNat ≤ 90) || (97 ≤ c.toNat && c.toNat ≤ 122)

def isDigitCh (c : Char) : Bool := 48 ≤ c.toNat && c.toNat ≤ 57

/-! ## URL model

`matchesUrlPattern` calls the platform's `new URL(url)`.  That parser is a
host primitive (not repository code); it is modelled here for
`scheme://host[:port]/path?query#fragment` URLs, which provides every field
the matcher reads (`protocol`, `hostname`, `pathname`, `search`). -/

structure URLParts where
  protocol : String
  hostname : String
  pathname : String
  search : String
  deriving DecidableEq, Repr

/-- A scheme is an ASCII letter followed by letters, digits, `+`, `-`, `.`. -/
def validScheme (s : List Char) : Bool :=
  match s with
  | [] => false
  | c :: cs => isAlphaCh c && cs.all (fun d => isAlphaCh d || isDigitCh d || d == '+' || d == '-' || d == '.')

/-- Model of the platform URL parser (`new URL(url)`); `none` models the
`TypeError` the constructor throws on input it cannot parse. -/
def parseURL (s : String) : Option URLParts :=
  match splitFirstSeq "://".data s.data with
  | none => none
  | some (scheme, remainder) =>
    if validScheme scheme then
      let authority := remainder.takeWhile (fun c => c ≠ '/' && c ≠ '?' && c ≠ '#')
      if authority.isEmpty then none
      else
        let host := authority.takeWhile (fun c => c ≠ ':')
        let afterAuth := remainder.drop authority.length
        let beforeFrag := afterAuth.takeWhile (fun c => c ≠ '#')
        let pathChars := beforeFrag.takeWhile (fun c => c ≠ '?')
        let searchChars := beforeFrag.drop pathChars.length
        some { protocol := String.mk (scheme.map charLower ++ [':'])
               hostname := String.mk (host.map charLower)
               pathname := String.mk (if pathChars.isEmpty then ['/'] else pathChars)
               search := String.mk searchChars }
    else none

/-! ## Match-pattern matcher (`matchesUrlPattern`) -/

/-- Backtracking matcher for the path regex
`'^/' + patternPath.replace(star, '.*') + '$'`: a `*` in the pattern
matches any character sequence and a literal `.` stays the regex
any-character atom; all other pattern characters match themselves.
The fuel argument only drives structural recursion; `globMatch` always
supplies enough. -/
def globMatchFuel : Nat → List Char → List Char → Bool
  | 0, _, _ => false
  | _ + 1, [], [] => true
  | f + 1, '*' :: ps, [] => globMatchFuel f ps []
  | _ + 1, _ :: _, [] => false
  | _ + 1, [], _ :: _ => false
  | f + 1, '*' :: ps, c :: cs => globMatchFuel f ps (c :: cs) || globMatchFuel f ('*' :: ps) cs
  | f + 1, '.' :: ps, _ :: cs => globMatchFuel f ps cs
  | f + 1, p :: ps, c :: cs => (p == c) && globMatchFuel f ps cs

def globMatch (ps cs : List Char) : Bool := globMatchFuel (ps.length + cs.length + 1) ps cs

/-- The anchored test of the path regex against `pathname + search`. -/
def pathMatches (patternPath : List Char) (target : List Char) : Bool :=
  match target with
  | '/' :: rest => globMatch patternPath rest
  | _ => false

/-- Decomposition of a pattern by the source regex
`^(star,http,https,ftp,file)://([^/]*)/(.*)$` into scheme, host and path;
`none` means the pattern fails to parse and is silently skipped. -/
def parsePattern (pattern : String) : Option (List Char × List Char × List Char) :=
  match splitFirstSeq "://".data pattern.data with
  | none => none
  | some (scheme, remainder) =>
    if scheme = "*".data || scheme = "http".data || scheme = "https".data
        || scheme = "ftp".data || scheme = "file".data then
      let host := remainder.takeWhile (fun c => c ≠ '/')
      match remainder.drop host.length with
      | '/' :: pathChars => some (scheme, host, pathChars)
      | _ => none
    else none

/-- One iteration of the `matchesUrlPattern` loop: does `url` match this
single pattern (`continue` in the source contributes `false` here)? -/
def matchOnePattern (url : String) (pattern : String) : Bool :=
  if pattern = "<all_urls>" then true
  else
    match parsePattern pattern with
    | none => false
    | some (scheme, host, patternPath) =>
      match parseURL url with
      | none => false
      | some parsed =>
        let protocolNoColon := parsed.protocol.data.filter (fun c => c ≠ ':')
        let schemeOk := scheme = ['*'] || scheme = protocolNoColon
        let hostOk :=
          if host = ['*'] then true
          else if ['*', '.'].isPrefixOf host then
            let domain := host.drop 2
            parsed.hostname.data = domain || ('.' :: domain).isSuffixOf parsed.hostname.data
          else parsed.hostname.data = host
        schemeOk && hostOk && pathMatches patternPath (parsed.pathname.data ++ parsed.search.data)

/-- Embeds `ExtensionManager.matchesUrlPattern(url, patterns)`: first match wins,
empty list yields `false`. -/
def matchesUrlPattern (url : String) (patterns : List String) : Bool :=
  patterns.any (matchOnePattern url)

/-! ## Tab registry

`tabRegistry : Map<string, TabInfo>` keeps insertion order, so it is
modelled as a list of `Tab` records with unique ids, together with the
`activeTabId` field of the manager. -/

structure Tab where
  id : String
  url : String
  title : String
  active : Bool
  windowId : Nat
  index : Nat
  favIconUrl : Option String
  status : String
  incognito : Bool
  deriving DecidableEq, Repr

/-- Embeds `Partial<TabInfo> & (id : string)`: a field is `none` when the incoming
partial record does not carry it. -/
structure TabPatch where
  id : String
  url : Option String := none
  title : Option String := none
  active : Option Bool := none
  windowId : Option Nat := none
  index : Option Nat := none
  favIconUrl : Option String := none
  status : Option String := none
  incognito : Option Bool := none
  deriving DecidableEq, Repr

structure Registry where
  tabs : List Tab
  activeTabId : Option String
  deriving DecidableEq, Repr

def emptyRegistry : Registry := { tabs := [], activeTabId := none }

/-- Embeds `Map.get`: the record stored under an id, if any. -/
def findTab (i : String) : List Tab → Option Tab
  | [] => none
  | t :: ts => if t.id = i then some t else findTab i ts

/-- Embeds `Object.assign(existing, tabInfo)`: every field present in the patch
overwrites the record's field. -/
def mergeTab (t : Tab) (p : TabPatch) : Tab :=
  { id := p.id
    url := p.url.getD t.url
    title := p.title.getD t.title
    active := p.active.getD t.active
    windowId := p.windowId.getD t.windowId
    index := p.index.getD t.index
    favIconUrl := match p.favIconUrl with | some f => some f | none => t.favIconUrl
    status := p.status.getD t.status
    incognito := p.incognito.getD t.incognito }

/-- The record built for an unknown id (`tabRegistry.set` branch of
`updateTab`); `size` is the registry size at creation time. -/
def freshTab (p : TabPatch) (size : Nat) : Tab :=
  { id := p.id
    url := jsOr p.url ""
    title := jsOr p.title "New Tab"
    active := p.active.getD false
    windowId := 1
    index := size
    favIconUrl := p.favIconUrl
    status := jsOr p.status "complete"
    incognito := false }

/-- Embeds `ExtensionManager.updateTab`: merge-or-create, then, when the incoming
record is marked active, record it in `activeTabId` and deactivate every
other tab. -/
def updateTab (r : Registry) (p : TabPatch) : Registry :=
  let tabs1 :=
    if (findTab p.id r.tabs).isSome then
      r.tabs.map (fun t => if t.id = p.id then mergeTab t p else t)
    else
      r.tabs ++ [freshTab p r.tabs.length]
  if p.active = some true then
    { tabs := tabs1.map (fun t => if t.id = p.id then t else { t with active := false })
      activeTabId := some p.id }
  else { tabs := tabs1, activeTabId := r.activeTabId }

/-- The `index = idx++` reindexing pass at the end of `removeTab`. -/
def reindex (l : List Tab) : List Tab :=
  l.enum.map (fun it => { it.2 with index := it.1 })

/-- Embeds `ExtensionManager.removeTab`: delete, repoint `activeTabId` at the last
remaining record when the removed tab was the active one, and reindex. -/
def removeTab (r : Registry) (tid : String) : Registry :=
  let tabs1 := r.tabs.filter (fun t => !(t.id = tid : Bool))
  let newActive :=
    if r.activeTabId = some tid then
      match tabs1.getLast? with
      | some t => some t.id
      | none => none
    else r.activeTabId
  { tabs := reindex tabs1, activeTabId := newActive }

/-- Embeds `ExtensionManager.setActiveTab`: `tab.active = (id === tabId)` for every
record, then remember the id (even when no record carries it). -/
def setActiveTab (r : Registry) (tid : String) : Registry :=
  { tabs := r.tabs.map (fun t => { t with active := decide (t.id = tid) })
    activeTabId := some tid }

/-- The inbound synchronization operations of the tab-state bridge. -/
inductive TabOp where
  | update (p : TabPatch)
  | remove (id : String)
  | activate (id : String)
  deriving DecidableEq, Repr

def applyTabOp (r : Registry) : TabOp → Registry
  | .update p => updateTab r p
  | .remove i => removeTab r i
  | .activate i => setActiveTab r i

def applyTabOps (ops : List TabOp) : Registry :=
  ops.foldl applyTabOp emptyRegistry

/-- The spec's density invariant: the `index` fields read off in registry
order are exactly `0, 1, ..., N-1`. -/
def IndexDense (l : List Tab) : Prop := l.map Tab.index = List.range l.length

/-- Registry invariant maintained by every operation: ids are unique (the
source keeps them as `Map` keys) and at most one tab is active. -/
def RegInv (r : Registry) : Prop :=
  (r.tabs.map Tab.id).Nodup ∧ r.tabs.countP (fun t => t.active) ≤ 1

/-- Does no update operation of the sequence carry an `incognito` field? -/
def noIncognitoPatches (ops : List TabOp) : Bool :=
  ops.all fun op =>
    match op with
    | .update p => p.incognito.isNone
    | _ => true

/-! ## Storage bridge

`extensionStorage : Map<string, Record<string, any>>` is the in-memory
cache; one `_solarium_storage.json` file per extension id is the durable
copy.  Both become id-indexed functions.  A `files` entry of `none` stands
for an absent file, and also for a file whose JSON fails to parse: the
source catches the parse error and falls back to the empty document, so
the two are indistinguishable to the program. -/

/-- A per-extension storage document (a JS object). -/
abbrev Doc (α : Type) := List (String × α)

structure StorageState (α : Type) where
  cache : String → Option (Doc α)
  files : String → Option (Doc α)

/-- Embeds `ExtensionManager.loadStorage`: cache hit, else read the file (or the
empty document) and populate the cache. -/
def loadStorage (st : StorageState α) (id : String) : Doc α × StorageState α :=
  match st.cache id with
  | some d => (d, st)
  | none =>
    let d := match st.files id with
      | some d => d
      | none => []
    (d, { st with cache := fun i => if i = id then some d else st.cache i })

/-- The document `loadStorage` hands back, ignoring the cache fill. -/
def loadedDoc (st : StorageState α) (id : String) : Doc α :=
  (loadStorage st id).1

/-- Write-back of both the cache entry and the durable file
(`extensionStorage.set` followed by `saveStorage`). -/
def storeDoc (st : StorageState α) (id : String) (d : Doc α) : StorageState α :=
  { cache := fun i => if i = id then some d else st.cache i
    files := fun i => if i = id then some d else st.files i }

/-- The polymorphic `keys` argument of `storageGet`. -/
inductive KeysSpec (α : Type) where
  | all : KeysSpec α
  | single (k : String) : KeysSpec α
  | keyList (ks : List String) : KeysSpec α
  | withDefaults (kvs : List (String × α)) : KeysSpec α

/-- Loop body of the array branch of `storageGet`:
`if (key in storage) result[key] = storage[key]`. -/
def getKeyListStep (d : Doc α) (acc : Doc (Option α)) (k : String) : Doc (Option α) :=
  match docFind k d with
  | some v => objSet k (some v) acc
  | none => acc

/-- Loop body of the defaults branch of `storageGet`:
`result[key] = key in storage ? storage[key] : defaultVal`. -/
def getDefaultsStep (d : Doc α) (acc : Doc (Option α)) (kv : String × α) : Doc (Option α) :=
  objSet kv.1 (some ((docFind kv.1 d).getD kv.2)) acc

/-- The shape dispatch of `ExtensionManager.storageGet` on a loaded
document.  Result values are `Option α` because the single-key branch can
put `undefined` (`none`) in the result object. -/
def storageGetSpec (d : Doc α) : KeysSpec α → Doc (Option α)
  | .all => d.map (fun p => (p.1, some p.2))
  | .single k => [(k, docFind k d)]
  | .keyList ks => ks.foldl (getKeyListStep d) []
  | .withDefaults kvs => kvs.foldl (getDefaultsStep d) []

/-- Embeds `ExtensionManager.storageGet`, with the cache fill it performs. -/
def storageGet (st : StorageState α) (id : String) (keys : KeysSpec α) :
    Doc (Option α) × StorageState α :=
  let (d, st1) := loadStorage st id
  (storageGetSpec d keys, st1)

/-- Embeds `ExtensionManager.storageSet`: `Object.assign(storage, items)` and a
synchronous write-back. -/
def storageSet (st : StorageState α) (id : String) (items : List (String × α)) :
    StorageState α :=
  let (d, st1) := loadStorage st id
  storeDoc st1 id (items.foldl (fun acc kv => objSet kv.1 kv.2 acc) d)

/-- Embeds `ExtensionManager.storageRemove`. -/
def storageRemove (st : StorageState α) (id : String) (keys : List String) :
    StorageState α :=
  let (d, st1) := loadStorage st id
  storeDoc st1 id (keys.foldl (fun acc k => objDelete k acc) d)

/-- Embeds `ExtensionManager.storageClear`: replaces the document with the empty
object without loading first. -/
def storageClear (st : StorageState α) (id : String) : StorageState α :=
  storeDoc st id []

/-- The mutating storage operations, for isolation statements. -/
inductive StorageOp (α : Type) where
  | setOp (items : List (String × α))
  | removeOp (keys : List String)
  | clearOp

def applyStorageOp (st : StorageState α) (id : String) : StorageOp α → StorageState α
  | .setOp items => storageSet st id items
  | .removeOp ks => storageRemove st id ks
  | .clearOp => storageClear st id

/-! ## `extension:remove` IPC handler

The handler wraps host removal and storage cleanup in one `try` block:
`session.defaultSession.extensions.removeExtension(extensionId)` comes
first, then cache eviction and file deletion, then `success: true`; the
`catch` returns `success: false`.  `hostRemoveOk` is the outcome of the
host removal primitive (a black box to the repository). -/

structure RemoveResult where
  success : Bool
  error : Option String
  deriving DecidableEq, Repr

def removeExtensionHandler (hostRemoveOk : Bool) (st : StorageState α) (extId : String) :
    RemoveResult × StorageState α :=
  if hostRemoveOk then
    ({ success := true, error := none },
     { cache := fun i => if i = extId then none else st.cache i
       files := fun i => if i = extId then none else st.files i })
  else
    ({ success := false, error := some "host removal rejected" }, st)

/-! ## Content-script resolver (`getContentScriptsForUrl`) -/

/-- One entry of a manifest's `content_scripts` array (`cs.matches`,
`cs.exclude_matches`, `cs.js`, `cs.css`, `cs.run_at`; the `|| []` defaults
of the source are the empty lists here). -/
structure ContentScriptBlock where
  /-- the block's `matches` list (`matches` is reserved in Lean). -/
  includeMatches : List String
  exclude_matches : List String
  js : List String
  css : List String
  run_at : Option String
  deriving Repr

/-- A loaded extension as the resolver sees it: its id, its declared
content-script blocks, and its on-disk files.  `readFile fullPath` is
`none` when `fs.existsSync` is false or `fs.readFileSync` throws (both
skip the file). -/
structure LoadedExtension where
  id : String
  path : String
  contentScripts : List ContentScriptBlock
  readFile : String → Option String

structure Bundle where
  extensionId : String
  js : List String
  css : List String
  runAt : String
  deriving DecidableEq, Repr

/-- Embeds `path.join(ext.path, file)` for the simple relative names used here. -/
def joinPath (root file : String) : String := root ++ "/" ++ file

/-- The body of the per-block loop of `getContentScriptsForUrl`: `some`
exactly when the block pushes a bundle. -/
def blockBundle (ext : LoadedExtension) (url : String) (cs : ContentScriptBlock) :
    Option Bundle :=
  if matchesUrlPattern url cs.includeMatches && !matchesUrlPattern url cs.exclude_matches then
    let jsFiles := cs.js.filterMap (fun f => ext.readFile (joinPath ext.path f))
    let cssFiles := cs.css.filterMap (fun f => ext.readFile (joinPath ext.path f))
    if jsFiles.length > 0 || cssFiles.length > 0 then
      some { extensionId := ext.id, js := jsFiles, css := cssFiles
             runAt := jsOr cs.run_at "document_idle" }
    else none
  else none

/-- Embeds `ExtensionManager.getContentScriptsForUrl` over the extensions the host
enumeration currently reports, in order. -/
def getContentScriptsForUrl (exts : List LoadedExtension) (url : String) : List Bundle :=
  exts.flatMap (fun ext => ext.contentScripts.filterMap (blockBundle ext url))

/-! ## CRX installer (`setupCRXHandler` download-done path) -/

/-- The zip local-file-header magic `50 4B 03 04`. -/
def zipMagic : List Nat := [0x50, 0x4B, 0x03, 0x04]

/-- Embeds `Buffer.indexOf(needle)`: index of the first occurrence, `none` for the
source's `-1`. -/
def indexOfSeq (needle : List Nat) : List Nat → Option Nat
  | [] => if needle.isEmpty then some 0 else none
  | c :: t =>
    if needle.isPrefixOf (c :: t) then some 0
    else (indexOfSeq needle t).map (· + 1)

/-- What the handler decides to do with the downloaded bytes.  The source
never produces `archiveCorrupt`; the constructor exists so the spec's
claimed behaviour is statable against the code. -/
inductive CrxOutcome where
  | extractAttempt (zipBuf : List Nat)
  | archiveCorrupt
  deriving DecidableEq, Repr

/-- The header-stripping step of the CRX install path:
`zipStart = fileBuf.indexOf(zipMagic); if (zipStart > 0) zipBuf =
fileBuf.subarray(zipStart)`, after which the buffer goes straight to
`new AdmZip(zipBuf)` — there is no corrupt-archive check. -/
def crxZipPayload (fileBuf : List Nat) : CrxOutcome :=
  let zipStart : Int := match indexOfSeq zipMagic fileBuf with
    | some i => (i : Int)
    | none => -1
  let zipBuf := if zipStart > 0 then fileBuf.drop zipStart.toNat else fileBuf
  CrxOutcome.extractAttempt zipBuf

/-! ## Icon derivation (`resolveExtensionIcon`) -/

/-- A value of the manifest's `icons` object: a string path or any
non-string JSON value (number, object, ...), which has no `.startsWith`. -/
inductive IconVal where
  | str (s : String)
  | nonstr
  deriving DecidableEq, Repr

/-- Embeds `Number(key)` for the icon-size keys, modelled for decimal-natural
keys; every other key maps to `none` (JS `NaN`; the one divergence is the
empty string, which JS maps to `0` — either way the later lookup of a key
the object does not contain throws). -/
def jsNumber (s : String) : Option Nat :=
  match s.data with
  | [] => none
  | ds =>
    if ds.all isDigitCh then
      some (ds.foldl (fun acc c => acc * 10 + (c.toNat - 48)) 0)
    else none

/-- Embeds `n.toString()` on the result, `"NaN"` for `NaN`. -/
def numToString : Option Nat → String
  | some n => toString n
  | none => "NaN"

/-- Insertion step for `sort((a, b) => b - a)`: numeric descending; a `NaN`
comparison is inconsistent, so a `NaN` stays where insertion first leaves
it. -/
def insertDesc (x : Option Nat) : List (Option Nat) → List (Option Nat)
  | [] => [x]
  | y :: t =>
    match x, y with
    | some a, some b => if b ≤ a then x :: y :: t else y :: insertDesc x t
    | _, _ => x :: y :: t

def sortDesc : List (Option Nat) → List (Option Nat)
  | [] => []
  | x :: t => insertDesc x (sortDesc t)

/-- Embeds `path.extname(p).toLowerCase()`: the part of the last component from
its final dot, lowercased; empty when there is no dot. -/
def extnameLower (p : String) : String :=
  let base := (p.data.reverse.takeWhile (fun c => c ≠ '/')).reverse
  match splitFirstSeq ['.'] base.reverse with
  | some (revExt, rest) =>
    if rest.isEmpty then "" else String.mk (('.' :: revExt.reverse).map charLower)
  | none => ""

def mimeFor (ext : String) : String :=
  if ext = ".svg" then "image/svg+xml"
  else if ext = ".webp" then "image/webp"
  else if ext = ".jpg" || ext = ".jpeg" then "image/jpeg"
  else "image/png"

def base64Chars : List Char :=
  "ABCDEFGHIJKLMNOPQRSTUVWXYZabcdefghijklmnopqrstuvwxyz0123456789+/".data

def b64char (n : Nat) : Char := base64Chars.getD n 'A'

/-- Standard base64 of a byte list (`buf.toString('base64')`). -/
def base64Encode : List Nat → String
  | [] => ""
  | [a] => String.mk [b64char (a / 4), b64char (a % 4 * 16), '=', '=']
  | [a, b] => String.mk [b64char (a / 4), b64char (a % 4 * 16 + b / 16), b64char (b % 16 * 4), '=']
  | a :: b :: c :: rest =>
    String.mk [b64char (a / 4), b64char (a % 4 * 16 + b / 16),
               b64char (b % 16 * 4 + c / 64), b64char (c % 64)] ++ base64Encode rest

/-- Embeds `ExtensionManager.resolveExtensionIcon`.  `icons` is the manifest's
`icons` object (`none` when the manifest has no `icons` block); `readFile`
models `fs` (`none` = missing file, and a read error is the `catch`
branch).  `Except.error` is a thrown `TypeError`: the lookup
`manifest.icons[sizes[0].toString()]` can be `undefined`, and
`iconRelPath.startsWith('/')` runs before the `try` block. -/
def resolveExtensionIcon (extPath : String) (icons : Option (List (String × IconVal)))
    (readFile : String → Option (List Nat)) : Except Unit String :=
  match icons with
  | none => .ok ""
  | some entries =>
    let sizes := sortDesc (entries.map (fun e => jsNumber e.1))
    match sizes with
    | [] => .ok ""
    | top :: _ =>
      match docFind (numToString top) entries with
      | none => .error ()
      | some .nonstr => .error ()
      | some (.str iconRelPath) =>
        let cleanPath := match iconRelPath.data with
          | '/' :: rest => String.mk rest
          | _ => iconRelPath
        let fullPath := joinPath extPath cleanPath
        match readFile fullPath with
        | none => .ok ""
        | some buf =>
          .ok ("data:" ++ mimeFor (extnameLower iconRelPath) ++ ";base64," ++ base64Encode buf)

/-! ## Concrete fixtures used by witnesses and counterexamples -/

/-- Storage state with one stored document, for the C4 witness. -/
def stC4 : StorageState Nat :=
  { cache := fun _ => none
    files := fun i => if i = "A" then some [("k", 7)] else none }

/-- Storage state for the C5 isolation witness. -/
def stC5 : StorageState Nat :=
  { cache := fun _ => none
    files := fun i => if i = "B" then some [("w", 3)] else none }

/-- Storage state with data under id `e`, for the C2 counterexample. -/
def stC2 : StorageState Nat :=
  { cache := fun i => if i = "e" then some [("k", 5)] else none
    files := fun i => if i = "e" then some [("k", 5)] else none }

/-- The extension of the content-script resolution scenario of the spec:
one block with `matches: ["*://example.com/*"]` and
`exclude_matches: ["*://example.com/admin/*"]`, one readable script file. -/
def exExt : LoadedExtension :=
  { id := "ex", path := "/ext"
    contentScripts := [{ includeMatches := ["*://example.com/*"]
                         exclude_matches := ["*://example.com/admin/*"]
                         js := ["a.js"], css := [], run_at := none }]
    readFile := fun p => if p = "/ext/a.js" then some "JS" else none }

def tabA : Tab :=
  { id := "a", url := "https://a.example/", title := "A", active := true, windowId := 1
    index := 0, favIconUrl := none, status := "complete", incognito := false }

def tabB : Tab :=
  { id := "b", url := "https://b.example/", title := "B", active := false, windowId := 1
    index := 1, favIconUrl := none, status := "complete", incognito := false }

def regC8 : Registry := { tabs := [tabA, tabB], activeTabId := some "a" }

/-! ## Lemmas about the JS object model -/

theorem docFind_objSet_self (k : String) (v : β) (r : List (String × β)) :
    docFind k (objSet k v r) = some v := by
  induction r with
  | nil => simp [objSet, docFind]
  | cons p t ih =>
    obtain ⟨a, b⟩ := p
    by_cases h : a = k
    · simp [objSet, h, docFind]
    · simp [objSet, h, docFind, ih]

theorem docFind_objSet_other (k k' : String) (v : β) (r : List (String × β))
    (h : k' ≠ k) : docFind k' (objSet k v r) = docFind k' r := by
  induction r with
  | nil => simp [objSet, docFind, Ne.symm h]
  | cons p t ih =>
    obtain ⟨a, b⟩ := p
    by_cases ha : a = k
    · subst ha
      simp [objSet, docFind, Ne.symm h]
    · by_cases ha' : a = k'
      · subst ha'
        simp [objSet, docFind, ha]
      · simp [objSet, docFind, ha, ha', ih]

/-! ## Lemmas about `storageGet`'s fold loops -/

theorem foldl_getKeyListStep_docFind (d : Doc α) :
    ∀ (ks : List String) (acc : Doc (Option α)) (k : String),
      docFind k (ks.foldl (getKeyListStep d) acc) =
        if k ∈ ks ∧ (docFind k d).isSome then (docFind k d).map some
        else docFind k acc := by
  intro ks
  induction ks with
  | nil => intro acc k; simp
  | cons j ks ih =>
    intro acc k
    rw [List.foldl_cons, ih]
    by_cases hk : k ∈ ks ∧ (docFind k d).isSome
    · simp [hk, List.mem_cons, hk.1]
    · rw [if_neg hk]
      by_cases hkj : k = j
      · subst hkj
        match hd : docFind k d with
        | some v =>
          simp only [getKeyListStep, hd]
          rw [if_pos ⟨List.mem_cons_self _ _, by simp [hd]⟩, docFind_objSet_self]
          simp
        | none =>
          simp only [getKeyListStep, hd]
          rw [if_neg (by simp [hd])]
      · have hmem : (k ∈ j :: ks ∧ (docFind k d).isSome) ↔ (k ∈ ks ∧ (docFind k d).isSome) := by
          simp [List.mem_cons, hkj]
        rw [if_neg (by rw [hmem]; exact hk)]
        match hd : docFind j d with
        | some v =>
          simp only [getKeyListStep, hd]
          rw [docFind_objSet_other _ _ _ _ hkj]
        | none => simp only [getKeyListStep, hd]

theorem foldl_getDefaultsStep_not_mem (d : Doc α) :
    ∀ (kvs : List (String × α)) (acc : Doc (Option α)) (k : String),
      k ∉ kvs.map Prod.fst →
      docFind k (kvs.foldl (getDefaultsStep d) acc) = docFind k acc := by
  intro kvs
  induction kvs with
  | nil => intro acc k _; simp
  | cons jv kvs ih =>
    intro acc k hk
    simp only [List.map_cons, List.mem_cons] at hk
    push_neg at hk
    rw [List.foldl_cons, ih _ _ hk.2]
    exact docFind_objSet_other _ _ _ _ hk.1

theorem foldl_getDefaultsStep_mem (d : Doc α) :
    ∀ (kvs : List (String × α)) (acc : Doc (Option α)) (k : String) (dv : α),
      (kvs.map Prod.fst).Nodup → (k, dv) ∈ kvs →
      docFind k (kvs.foldl (getDefaultsStep d) acc) =
        some (some ((docFind k d).getD dv)) := by
  intro kvs
  induction kvs with
  | nil => intro acc k dv _ h; simp at h
  | cons jv kvs ih =>
    intro acc k dv hnd hmem
    simp only [List.map_cons, List.nodup_cons] at hnd
    rcases List.mem_cons.1 hmem with heq | htail
    · have hk : k = jv.1 := by rw [← heq]
      have hdv : dv = jv.2 := by rw [← heq]
      subst hk; subst hdv
      rw [List.foldl_cons, foldl_getDefaultsStep_not_mem d kvs _ _ hnd.1]
      exact docFind_objSet_self _ _ _
    · exact List.foldl_cons _ _ ▸ ih _ k dv hnd.2 htail

/-! ## Lemmas about the storage state -/

theorem loadedDoc_eq (st : StorageState α) (id : String) :
    loadedDoc st id =
      match st.cache id with
      | some d => d
      | none => match st.files id with
        | some d => d
        | none => [] := by
  unfold loadedDoc loadStorage
  cases st.cache id <;> simp

theorem storageGet_fst (st : StorageState α) (id : String) (keys : KeysSpec α) :
    (storageGet st id keys).1 = storageGetSpec (loadedDoc st id) keys := by
  unfold storageGet loadedDoc loadStorage
  cases st.cache id <;> simp

theorem loadStorage_cache_other (st : StorageState α) (A B : String) (h : B ≠ A) :
    (loadStorage st A).2.cache B = st.cache B := by
  unfold loadStorage
  cases st.cache A <;> simp [h]

theorem loadStorage_files (st : StorageState α) (A : String) :
    (loadStorage st A).2.files = st.files := by
  unfold loadStorage
  cases st.cache A <;> simp

theorem storeDoc_cache_other (st : StorageState α) (A B : String) (d : Doc α) (h : B ≠ A) :
    (storeDoc st A d).cache B = st.cache B := by
  simp [storeDoc, h]

theorem storeDoc_files_other (st : StorageState α) (A B : String) (d : Doc α) (h : B ≠ A) :
    (storeDoc st A d).files B = st.files B := by
  simp [storeDoc, h]

theorem applyStorageOp_cache_other (st : StorageState α) (A B : String) (op : StorageOp α)
    (h : B ≠ A) : (applyStorageOp st A op).cache B = st.cache B := by
  cases op with
  | setOp items =>
    show (storeDoc (loadStorage st A).2 A _).cache B = _
    rw [storeDoc_cache_other _ _ _ _ h, loadStorage_cache_other _ _ _ h]
  | removeOp ks =>
    show (storeDoc (loadStorage st A).2 A _).cache B = _
    rw [storeDoc_cache_other _ _ _ _ h, loadStorage_cache_other _ _ _ h]
  | clearOp =>
    show (storeDoc st A _).cache B = _
    rw [storeDoc_cache_other _ _ _ _ h]

theorem applyStorageOp_files_other (st : StorageState α) (A B : String) (op : StorageOp α)
    (h : B ≠ A) : (applyStorageOp st A op).files B = st.files B := by
  cases op with
  | setOp items =>
    show (storeDoc (loadStorage st A).2 A _).files B = _
    rw [storeDoc_files_other _ _ _ _ h, loadStorage_files]
  | removeOp ks =>
    show (storeDoc (loadStorage st A).2 A _).files B = _
    rw [storeDoc_files_other _ _ _ _ h, loadStorage_files]
  | clearOp =>
    show (storeDoc st A _).files B = _
    rw [storeDoc_files_other _ _ _ _ h]

theorem loadedDoc_congr (st st' : StorageState α) (B : String)
    (hc : st.cache B = st'.cache B) (hf : st.files B = st'.files B) :
    loadedDoc st B = loadedDoc st' B := by
  rw [loadedDoc_eq, loadedDoc_eq, hc, hf]

/-! ## Claim theorems: storage -/

/-- C4: `storageGet` is shape-polymorphic exactly as claimed: a `null` /
`undefined` spec yields the whole document; a single string key yields a
one-entry object whose value is `undefined` (`none`) when the key is
absent; an array yields exactly the listed keys that are present in the
document; a key-to-default object yields every listed key, with the
default substituted exactly when the key is absent. -/
theorem c4_storageGet_shapes :
    ∀ (α : Type) (st : StorageState α) (id : String),
      (storageGet st id KeysSpec.all).1 = (loadedDoc st id).map (fun p => (p.1, some p.2))
      ∧ (∀ k, (storageGet st id (KeysSpec.single k)).1 = [(k, docFind k (loadedDoc st id))])
      ∧ (∀ ks k, docFind k (storageGet st id (KeysSpec.keyList ks)).1 =
          if k ∈ ks then (docFind k (loadedDoc st id)).map some else none)
      ∧ (∀ kvs, (kvs.map Prod.fst).Nodup →
          (∀ k dv, (k, dv) ∈ kvs →
            docFind k (storageGet st id (KeysSpec.withDefaults kvs)).1 =
              some (some ((docFind k (loadedDoc st id)).getD dv)))
          ∧ (∀ k, k ∉ kvs.map Prod.fst →
              docFind k (storageGet st id (KeysSpec.withDefaults kvs)).1 = none)) := by
  intro α st id
  refine ⟨?_, ?_, ?_, ?_⟩
  · rw [storageGet_fst]; rfl
  · intro k; rw [storageGet_fst]; rfl
  · intro ks k
    rw [storageGet_fst]
    show docFind k (ks.foldl (getKeyListStep (loadedDoc st id)) []) = _
    rw [foldl_getKeyListStep_docFind]
    by_cases hk : k ∈ ks
    · by_cases hs : (docFind k (loadedDoc st id)).isSome
      · rw [if_pos ⟨hk, hs⟩, if_pos hk]
      · rw [if_neg (by tauto), if_pos hk]
        rw [Option.not_isSome_iff_eq_none] at hs
        simp [hs, docFind]
    · rw [if_neg (by tauto), if_neg hk]; rfl
  · intro kvs hnd
    constructor
    · intro k dv hmem
      rw [storageGet_fst]
      exact foldl_getDefaultsStep_mem _ kvs [] k dv hnd hmem
    · intro k hk
      rw [storageGet_fst]
      show docFind k (kvs.foldl (getDefaultsStep (loadedDoc st id)) []) = _
      rw [foldl_getDefaultsStep_not_mem _ kvs [] k hk]; rfl

/-- Witness for C4 at a concrete state: a never-set key with a default
comes back as the default, and a single missing key comes back as an
`undefined`-valued entry. -/
theorem c4_witness :
    docFind "missing" (storageGet stC4 "A" (KeysSpec.withDefaults [("missing", 42)])).1 =
      some (some 42)
    ∧ (storageGet stC4 "A" (KeysSpec.single "z")).1 = [("z", none)] := by
  have h := c4_storageGet_shapes Nat stC4 "A"
  constructor
  · have h4 := (h.2.2.2 [("missing", 42)] (by decide)).1 "missing" 42 (by decide)
    rw [h4]
    decide
  · rw [h.2.1 "z"]
    decide

/-- C5: storage is isolated per extension identifier: a mutating storage
operation performed for id `A` neither changes the document that
`loadStorage` yields for a different id `B`, nor the result of any
`storageGet` for `B`. -/
theorem c5_storage_isolation :
    ∀ (α : Type) (st : StorageState α) (A B : String) (op : StorageOp α) (spec : KeysSpec α),
      A ≠ B →
        loadedDoc (applyStorageOp st A op) B = loadedDoc st B
        ∧ (storageGet (applyStorageOp st A op) B spec).1 = (storageGet st B spec).1 := by
  intro α st A B op spec h
  have hBA : B ≠ A := Ne.symm h
  have hdoc : loadedDoc (applyStorageOp st A op) B = loadedDoc st B :=
    loadedDoc_congr _ _ _ (applyStorageOp_cache_other st A B op hBA)
      (applyStorageOp_files_other st A B op hBA)
  exact ⟨hdoc, by rw [storageGet_fst, storageGet_fst, hdoc]⟩

/-- Witness for C5: a concrete `set` for `"A"` is invisible to a concrete
`get` for `"B"`. -/
theorem c5_witness :
    (storageGet (applyStorageOp stC5 "A" (StorageOp.setOp [("k", 1)])) "B"
        (KeysSpec.single "k")).1 =
      (storageGet stC5 "B" (KeysSpec.single "k")).1 :=
  (c5_storage_isolation Nat stC5 "A" "B" (StorageOp.setOp [("k", 1)])
    (KeysSpec.single "k") (by decide)).2

/-- C2 counterexample: when the host removal primitive rejects, the
`extension:remove` handler returns `success: false` but performs no
cleanup at all — the cached document and the durable file of the extension
are left in place, contradicting the claim that cleanup still happens. -/
theorem c2_counterexample :
    (removeExtensionHandler false stC2 "e").1.success = false
    ∧ (removeExtensionHandler false stC2 "e").2.cache "e" = some [("k", 5)]
    ∧ (removeExtensionHandler false stC2 "e").2.files "e" = some [("k", 5)] :=
  ⟨rfl, rfl, rfl⟩

/-- C2 amended: the handler's `try` block runs host removal first, so a
host rejection returns a failure result with the storage state untouched
(cleanup skipped, not merely unrolled); cache eviction and storage-file
deletion happen only when host removal succeeds. -/
theorem c2_remove_failure_skips_cleanup :
    ∀ (α : Type) (st : StorageState α) (extId : String),
      removeExtensionHandler false st extId =
        ({ success := false, error := some "host removal rejected" }, st)
      ∧ (removeExtensionHandler true st extId).1.success = true
      ∧ (removeExtensionHandler true st extId).2.cache extId = none
      ∧ (removeExtensionHandler true st extId).2.files extId = none := by
  intro α st extId
  refine ⟨rfl, rfl, ?_, ?_⟩ <;> simp [removeExtensionHandler]

/-! ## Lemmas about the tab registry -/

theorem findTab_none_ne (i : String) (l : List Tab) (h : findTab i l = none) :
    ∀ t ∈ l, t.id ≠ i := by
  induction l with
  | nil => intro t ht; simp at ht
  | cons s l ih =>
    intro t ht
    by_cases hs : s.id = i
    · simp [findTab, hs] at h
    · unfold findTab at h
      rw [if_neg hs] at h
      rcases List.mem_cons.1 ht with rfl | hmem
      · exact hs
      · exact ih h t hmem

theorem countP_decide_le_one_of_nodup [DecidableEq γ] (l : List γ) (h : l.Nodup) (a : γ) :
    l.countP (fun s => decide (s = a)) ≤ 1 := by
  induction l with
  | nil => simp
  | cons b t ih =>
    rw [List.nodup_cons] at h
    rw [List.countP_cons]
    by_cases hba : b = a
    · subst hba
      have hz : t.countP (fun s => decide (s = b)) = 0 :=
        List.countP_eq_zero.2 (fun x hx => by simp; rintro rfl; exact h.1 hx)
      simp [hz]
    · simpa [hba] using ih h.2

theorem map_id_mergeIf (l : List Tab) (p : TabPatch) :
    (l.map fun t => if t.id = p.id then mergeTab t p else t).map Tab.id = l.map Tab.id := by
  rw [List.map_map]
  apply List.map_congr_left
  intro t _
  by_cases h : t.id = p.id
  · simp [Function.comp, h, mergeTab]
  · simp [Function.comp, h]

theorem map_id_deact (l : List Tab) (p : TabPatch) :
    (l.map fun t => if t.id = p.id then t else { t with active := false }).map Tab.id =
      l.map Tab.id := by
  rw [List.map_map]
  apply List.map_congr_left
  intro t _
  by_cases h : t.id = p.id <;> simp [Function.comp, h]

theorem map_index_deact (l : List Tab) (p : TabPatch) :
    (l.map fun t => if t.id = p.id then t else { t with active := false }).map Tab.index =
      l.map Tab.index := by
  rw [List.map_map]
  apply List.map_congr_left
  intro t _
  by_cases h : t.id = p.id <;> simp [Function.comp, h]

theorem countP_active_deact_le (l : List Tab) (p : TabPatch)
    (hnd : (l.map Tab.id).Nodup) :
    (l.map fun t => if t.id = p.id then t else { t with active := false }).countP
      (fun t => t.active) ≤ 1 := by
  rw [List.countP_map]
  have step1 :
      l.countP ((fun t : Tab => t.active) ∘ fun t =>
          if t.id = p.id then t else { t with active := false }) ≤
        l.countP (fun t => decide (t.id = p.id)) := by
    apply List.countP_mono_left
    intro t _ ht
    by_cases h : t.id = p.id
    · simp [h]
    · exfalso
      simp [Function.comp, h] at ht
  have step2 : l.countP (fun t => decide (t.id = p.id)) ≤ 1 := by
    have heq : l.countP (fun t => decide (t.id = p.id)) =
        (l.map Tab.id).countP (fun s => decide (s = p.id)) := by
      rw [List.countP_map]; rfl
    rw [heq]
    exact countP_decide_le_one_of_nodup _ hnd _
  exact le_trans step1 step2

theorem map_id_reindex (l : List Tab) : (reindex l).map Tab.id = l.map Tab.id := by
  unfold reindex
  rw [List.map_map]
  have h : (Tab.id ∘ fun it : Nat × Tab => { it.2 with index := it.1 }) =
      (Tab.id ∘ Prod.snd) := rfl
  rw [h, ← List.map_map, List.enum_map_snd]

theorem map_index_reindex (l : List Tab) :
    (reindex l).map Tab.index = List.range l.length := by
  unfold reindex
  rw [List.map_map]
  have h : (Tab.index ∘ fun it : Nat × Tab => { it.2 with index := it.1 }) =
      (Prod.fst : Nat × Tab → Nat) := rfl
  rw [h, List.enum_map_fst]

theorem reindex_length (l : List Tab) : (reindex l).length = l.length := by
  simp [reindex, List.enum_length]

theorem countP_active_reindex (l : List Tab) :
    (reindex l).countP (fun t => t.active) = l.countP (fun t => t.active) := by
  unfold reindex
  rw [List.countP_map]
  have h : ((fun t : Tab => t.active) ∘ fun it : Nat × Tab => { it.2 with index := it.1 }) =
      ((fun t : Tab => t.active) ∘ Prod.snd) := rfl
  rw [h, ← List.countP_map, List.enum_map_snd]

theorem mem_reindex (l : List Tab) (t : Tab) (h : t ∈ reindex l) :
    ∃ s ∈ l, t.incognito = s.incognito ∧ t.id = s.id ∧ t.active = s.active := by
  rcases List.mem_map.1 h with ⟨it, hit, rfl⟩
  refine ⟨it.2, ?_, rfl, rfl, rfl⟩
  have : it.2 ∈ l.enum.map Prod.snd := List.mem_map.2 ⟨it, hit, rfl⟩
  rwa [List.enum_map_snd] at this

theorem regInv_updateTab (r : Registry) (p : TabPatch) (h : RegInv r) :
    RegInv (updateTab r p) := by
  obtain ⟨hnd, hcnt⟩ := h
  unfold updateTab
  by_cases hex : (findTab p.id r.tabs).isSome
  · simp only [hex, if_true]
    by_cases hpa : p.active = some true
    · rw [if_pos hpa]
      refine ⟨?_, ?_⟩
      · show ((r.tabs.map fun t => if t.id = p.id then mergeTab t p else t).map
          fun t => if t.id = p.id then t else { t with active := false }).map Tab.id |>.Nodup
        rw [map_id_deact, map_id_mergeIf]
        exact hnd
      · exact countP_active_deact_le _ p (by rw [map_id_mergeIf]; exact hnd)
    · rw [if_neg hpa]
      refine ⟨by rw [map_id_mergeIf]; exact hnd, ?_⟩
      show (r.tabs.map fun t => if t.id = p.id then mergeTab t p else t).countP
        (fun t => t.active) ≤ 1
      rw [List.countP_map]
      refine le_trans (List.countP_mono_left ?_) hcnt
      intro t _ ht
      by_cases hid : t.id = p.id
      · simp only [Function.comp, hid, if_pos] at ht
        match hopt : p.active with
        | none => simpa [mergeTab, hopt] using ht
        | some true => exact absurd hopt hpa
        | some false => simp [mergeTab, hopt] at ht
      · simpa [Function.comp, hid] using ht
  · simp only [hex, if_false]
    have hfr : p.id ∉ r.tabs.map Tab.id := by
      rw [Option.not_isSome_iff_eq_none] at hex
      intro hmem
      rcases List.mem_map.1 hmem with ⟨t, ht, hid⟩
      exact findTab_none_ne _ _ hex t ht hid
    have hnd1 : ((r.tabs ++ [freshTab p r.tabs.length]).map Tab.id).Nodup := by
      rw [List.map_append]
      rw [List.nodup_append]
      refine ⟨hnd, by simp, ?_⟩
      intro a ha hb
      simp only [List.map_cons, List.map_nil, List.mem_singleton] at hb
      subst hb
      exact hfr ha
    by_cases hpa : p.active = some true
    · rw [if_pos hpa]
      exact ⟨by rw [map_id_deact]; exact hnd1, countP_active_deact_le _ p hnd1⟩
    · rw [if_neg hpa]
      refine ⟨hnd1, ?_⟩
      show ((r.tabs ++ [freshTab p r.tabs.length]).countP fun t => t.active) ≤ 1
      rw [List.countP_append]
      have hfa : (freshTab p r.tabs.length).active = false := by
        match hopt : p.active with
        | none => simp [freshTab, hopt]
        | some true => exact absurd hopt hpa
        | some false => simp [freshTab, hopt]
      simpa [hfa] using hcnt

theorem regInv_removeTab (r : Registry) (tid : String) (h : RegInv r) :
    RegInv (removeTab r tid) := by
  obtain ⟨hnd, hcnt⟩ := h
  constructor
  · show ((reindex (r.tabs.filter _)).map Tab.id).Nodup
    rw [map_id_reindex]
    exact ((List.filter_sublist r.tabs).map Tab.id).nodup hnd
  · show ((reindex (r.tabs.filter _)).countP fun t => t.active) ≤ 1
    rw [countP_active_reindex, List.countP_filter]
    refine le_trans (List.countP_mono_left ?_) hcnt
    intro t _ ht
    rw [Bool.and_eq_true] at ht
    exact ht.1

theorem regInv_setActiveTab (r : Registry) (tid : String) (h : RegInv r) :
    RegInv (setActiveTab r tid) := by
  obtain ⟨hnd, hcnt⟩ := h
  constructor
  · show ((r.tabs.map fun t => { t with active := decide (t.id = tid) }).map Tab.id).Nodup
    rw [List.map_map]
    have heq : (Tab.id ∘ fun t : Tab => { t with active := decide (t.id = tid) }) = Tab.id :=
      rfl
    rw [heq]
    exact hnd
  · show ((r.tabs.map fun t => { t with active := decide (t.id = tid) }).countP
      fun t => t.active) ≤ 1
    rw [List.countP_map]
    have heq : ((fun t : Tab => t.active) ∘ fun t : Tab =>
        { t with active := decide (t.id = tid) }) = fun t : Tab => decide (t.id = tid) := rfl
    rw [heq]
    have heq2 : r.tabs.countP (fun t => decide (t.id = tid)) =
        (r.tabs.map Tab.id).countP (fun s => decide (s = tid)) := by
      rw [List.countP_map]; rfl
    rw [heq2]
    exact countP_decide_le_one_of_nodup _ hnd _

theorem regInv_applyTabOp (r : Registry) (op : TabOp) (h : RegInv r) :
    RegInv (applyTabOp r op) := by
  cases op with
  | update p => exact regInv_updateTab r p h
  | remove i => exact regInv_removeTab r i h
  | activate i => exact regInv_setActiveTab r i h

theorem regInv_foldl (ops : List TabOp) :
    ∀ r : Registry, RegInv r → RegInv (ops.foldl applyTabOp r) := by
  induction ops with
  | nil => intro r h; exact h
  | cons op ops ih =>
    intro r h
    rw [List.foldl_cons]
    exact ih _ (regInv_applyTabOp r op h)

theorem updateTab_fresh_dense (r : Registry) (p : TabPatch)
    (hf : findTab p.id r.tabs = none) (hd : IndexDense r.tabs) :
    IndexDense (updateTab r p).tabs
    ∧ ∃ t ∈ (updateTab r p).tabs, t.id = p.id ∧ t.index = r.tabs.length := by
  have hex : ¬((findTab p.id r.tabs).isSome = true) := by simp [hf]
  have happ : IndexDense (r.tabs ++ [freshTab p r.tabs.length]) := by
    unfold IndexDense at hd ⊢
    rw [List.map_append, hd, List.length_append]
    have hsing : List.map Tab.index [freshTab p r.tabs.length] = [r.tabs.length] := rfl
    rw [hsing, ← List.range_succ]
    rfl
  unfold updateTab
  simp only [hex, if_false]
  by_cases hpa : p.active = some true
  · rw [if_pos hpa]
    constructor
    · show IndexDense ((r.tabs ++ [freshTab p r.tabs.length]).map fun t =>
        if t.id = p.id then t else { t with active := false })
      unfold IndexDense
      rw [map_index_deact, List.length_map]
      exact happ
    · refine ⟨freshTab p r.tabs.length, ?_, rfl, rfl⟩
      apply List.mem_map.2
      refine ⟨freshTab p r.tabs.length, ?_, ?_⟩
      · exact List.mem_append_right _ (List.mem_singleton_self _)
      · rw [if_pos (show (freshTab p r.tabs.length).id = p.id from rfl)]
  · rw [if_neg hpa]
    exact ⟨happ, freshTab p r.tabs.length,
      List.mem_append_right _ (List.mem_singleton_self _), rfl, rfl⟩

theorem incognito_mergeIf (p : TabPatch) (hpi : p.incognito = none) (u : Tab)
    (hu : u.incognito = false) :
    (if u.id = p.id then mergeTab u p else u).incognito = false := by
  by_cases hid : u.id = p.id
  · rw [if_pos hid]
    show p.incognito.getD u.incognito = false
    rw [hpi]
    exact hu
  · rw [if_neg hid]
    exact hu

theorem incognito_preserved_applyTabOp (r : Registry) (op : TabOp)
    (hop : ∀ p, op = TabOp.update p → p.incognito = none)
    (h : ∀ t ∈ r.tabs, t.incognito = false) :
    ∀ t ∈ (applyTabOp r op).tabs, t.incognito = false := by
  cases op with
  | update p =>
    have hpi : p.incognito = none := hop p rfl
    show ∀ t ∈ (updateTab r p).tabs, t.incognito = false
    unfold updateTab
    by_cases hex : (findTab p.id r.tabs).isSome
    · simp only [hex, if_true]
      by_cases hpa : p.active = some true
      · rw [if_pos hpa]
        intro t ht
        rcases List.mem_map.1 ht with ⟨s, hs, rfl⟩
        rcases List.mem_map.1 hs with ⟨u, hu, rfl⟩
        have hum := incognito_mergeIf p hpi u (h u hu)
        by_cases hid2 : (if u.id = p.id then mergeTab u p else u).id = p.id
        · rw [if_pos hid2]; exact hum
        · rw [if_neg hid2]; exact hum
      · rw [if_neg hpa]
        intro t ht
        rcases List.mem_map.1 ht with ⟨u, hu, rfl⟩
        exact incognito_mergeIf p hpi u (h u hu)
    · simp only [hex, if_false]
      have happ : ∀ t ∈ r.tabs ++ [freshTab p r.tabs.length], t.incognito = false := by
        intro t ht
        rcases List.mem_append.1 ht with hmem | hmem
        · exact h t hmem
        · rw [List.mem_singleton] at hmem
          subst hmem
          rfl
      by_cases hpa : p.active = some true
      · rw [if_pos hpa]
        intro t ht
        rcases List.mem_map.1 ht with ⟨s, hs, rfl⟩
        have hsi := happ s hs
        by_cases hid2 : s.id = p.id
        · rw [if_pos hid2]; exact hsi
        · rw [if_neg hid2]; exact hsi
      · rw [if_neg hpa]
        exact happ
  | remove i =>
    intro t ht
    rcases mem_reindex _ t ht with ⟨s, hs, hinc, _, _⟩
    rw [hinc]
    exact h s (List.mem_of_mem_filter hs)
  | activate i =>
    intro t ht
    rcases List.mem_map.1 ht with ⟨u, hu, rfl⟩
    exact h u hu

theorem incognito_foldl (ops : List TabOp) :
    ∀ r : Registry, noIncognitoPatches ops = true →
      (∀ t ∈ r.tabs, t.incognito = false) →
      ∀ t ∈ (ops.foldl applyTabOp r).tabs, t.incognito = false := by
  induction ops with
  | nil => intro r _ h; exact h
  | cons op ops ih =>
    intro r hno h
    unfold noIncognitoPatches at hno
    rw [List.all_cons, Bool.and_eq_true] at hno
    rw [List.foldl_cons]
    apply ih _ hno.2
    apply incognito_preserved_applyTabOp r op _ h
    intro p hp
    subst hp
    exact Option.isNone_iff_eq_none.1 hno.1

/-! ## Claim theorems: tab registry -/

/-- C1 counterexample: from the empty registry, a single `updateTab` whose
partial record does not mark the tab active yields a nonempty registry in
which no tab at all has `active = true` — not exactly one. -/
theorem c1_counterexample :
    (applyTabOps [TabOp.update { id := "a" }]).tabs ≠ []
    ∧ ((applyTabOps [TabOp.update { id := "a" }]).tabs.countP fun t => t.active) = 0 := by
  decide

/-- C1 amended: after any sequence of `updateTab` / `setActiveTab` /
`removeTab` operations applied to the initially empty registry, at most
one tab record has `active = true` (exactly one is not guaranteed: an
upsert with `active` absent or false, and removal of the active tab,
leave zero active records). -/
theorem c1_at_most_one_active :
    ∀ ops : List TabOp, ((applyTabOps ops).tabs.countP fun t => t.active) ≤ 1 := by
  intro ops
  exact (regInv_foldl ops emptyRegistry ⟨List.nodup_nil, by simp [emptyRegistry]⟩).2

/-- C8: after `removeTab` the remaining records' `index` fields are the
dense sequence `0..N-1`, and a tab subsequently upserted under a fresh
identifier is appended with index `N`, preserving density. -/
theorem c8_remove_reindex_dense :
    (∀ (r : Registry) (tid : String), IndexDense (removeTab r tid).tabs)
    ∧ (∀ (r : Registry) (tid : String) (p : TabPatch),
        findTab p.id (removeTab r tid).tabs = none →
          IndexDense (updateTab (removeTab r tid) p).tabs
          ∧ ∃ t ∈ (updateTab (removeTab r tid) p).tabs,
              t.id = p.id ∧ t.index = (removeTab r tid).tabs.length) := by
  have hrem : ∀ (r : Registry) (tid : String), IndexDense (removeTab r tid).tabs := by
    intro r tid
    show IndexDense (reindex _)
    unfold IndexDense
    rw [map_index_reindex, reindex_length]
  exact ⟨hrem, fun r tid p hf => updateTab_fresh_dense _ p hf (hrem r tid)⟩

/-- Witness for C8 on a concrete two-tab registry: removing the active tab
leaves dense indices, and re-adding a fresh tab keeps them dense. -/
theorem c8_witness :
    IndexDense (removeTab regC8 "a").tabs
    ∧ IndexDense (updateTab (removeTab regC8 "a") { id := "c" }).tabs :=
  ⟨c8_remove_reindex_dense.1 regC8 "a",
   (c8_remove_reindex_dense.2 regC8 "a" { id := "c" } (by decide)).1⟩

/-- C10 counterexample: an upsert of an existing tab whose partial record
carries `incognito: true` is copied verbatim by `Object.assign`, so the
registry reaches a state with an `incognito = true` record. -/
theorem c10_counterexample :
    ∃ t ∈ (applyTabOps [TabOp.update { id := "a" },
        TabOp.update { id := "a", incognito := some true }]).tabs,
      t.incognito = true := by
  decide

/-- C10 amended: records created by `updateTab` always start with
`incognito = false` (creation ignores any incoming `incognito` field), and
the all-records-non-incognito invariant holds for every operation sequence
whose upsert patches carry no `incognito` field; an upsert of an existing
tab, however, copies an incoming `incognito` field into the record. -/
theorem c10_incognito_default :
    (∀ ops : List TabOp, noIncognitoPatches ops = true →
        ∀ t ∈ (applyTabOps ops).tabs, t.incognito = false)
    ∧ (∀ (r : Registry) (p : TabPatch), findTab p.id r.tabs = none →
        ∃ t ∈ (updateTab r p).tabs, t.id = p.id ∧ t.incognito = false) := by
  constructor
  · intro ops h
    refine incognito_foldl ops emptyRegistry h ?_
    intro t ht
    simp [emptyRegistry] at ht
  · intro r p hf
    have hex : ¬((findTab p.id r.tabs).isSome = true) := by simp [hf]
    unfold updateTab
    simp only [hex, if_false]
    by_cases hpa : p.active = some true
    · rw [if_pos hpa]
      refine ⟨freshTab p r.tabs.length, ?_, rfl, rfl⟩
      apply List.mem_map.2
      refine ⟨freshTab p r.tabs.length,
        List.mem_append_right _ (List.mem_singleton_self _), ?_⟩
      rw [if_pos (show (freshTab p r.tabs.length).id = p.id from rfl)]
    · rw [if_neg hpa]
      exact ⟨freshTab p r.tabs.length,
        List.mem_append_right _ (List.mem_singleton_self _), rfl, rfl⟩

/-- Witness for C10 on a concrete incognito-free operation sequence. -/
theorem c10_witness :
    ((applyTabOps [TabOp.update { id := "a" }, TabOp.activate "a"]).tabs.all
      fun t => !t.incognito) = true := by
  have h := c10_incognito_default.1 [TabOp.update { id := "a" }, TabOp.activate "a"]
    (by decide)
  rw [List.all_eq_true]
  intro t ht
  simpa using h t ht

/-! ## Claim theorems: matcher, content scripts, installer, icons -/

/-- C3: `matchesUrlPattern` returns true whenever the pattern list contains
`<all_urls>`; the spec's concrete wildcard-subdomain examples evaluate as
claimed; and the empty pattern list never matches. -/
theorem c3_matches_url_pattern :
    (∀ (url : String) (patterns : List String),
        "<all_urls>" ∈ patterns → matchesUrlPattern url patterns = true)
    ∧ matchesUrlPattern "https://sub.example.com/path" ["*://*.example.com/*"] = true
    ∧ matchesUrlPattern "https://example.org" ["*://*.example.com/*"] = false
    ∧ (∀ url : String, matchesUrlPattern url [] = false) := by
  refine ⟨?_, by decide, by decide, fun url => rfl⟩
  intro url patterns h
  unfold matchesUrlPattern
  rw [List.any_eq_true]
  exact ⟨"<all_urls>", h, by simp [matchOnePattern]⟩

/-- Witness for C3 at a concrete URL and pattern lists. -/
theorem c3_witness :
    matchesUrlPattern "https://anything.example/x" ["<all_urls>"] = true
    ∧ matchesUrlPattern "https://anything.example/x" [] = false :=
  ⟨c3_matches_url_pattern.1 "https://anything.example/x" ["<all_urls>"] (by decide),
   c3_matches_url_pattern.2.2.2 "https://anything.example/x"⟩

/-- C6: a content-script block contributes a bundle exactly when the URL
matches its inclusion list, matches none of its exclusion list, and at
least one of its script or stylesheet files is readable; the resolver is
the in-order concatenation of the per-block results; and the spec's
example-dot-com admin-exclusion scenario behaves as claimed. -/
theorem c6_content_script_blocks :
    (∀ (ext : LoadedExtension) (url : String) (cs : ContentScriptBlock),
        (blockBundle ext url cs).isSome = true ↔
          (matchesUrlPattern url cs.includeMatches = true
           ∧ matchesUrlPattern url cs.exclude_matches = false
           ∧ (cs.js.filterMap (fun f => ext.readFile (joinPath ext.path f)) ≠ []
              ∨ cs.css.filterMap (fun f => ext.readFile (joinPath ext.path f)) ≠ [])))
    ∧ (∀ (exts : List LoadedExtension) (url : String),
        getContentScriptsForUrl exts url =
          exts.flatMap fun ext => ext.contentScripts.filterMap (blockBundle ext url))
    ∧ getContentScriptsForUrl [exExt] "https://example.com/home" =
        [{ extensionId := "ex", js := ["JS"], css := [], runAt := "document_idle" }]
    ∧ getContentScriptsForUrl [exExt] "https://example.com/admin/x" = [] := by
  refine ⟨?_, fun exts url => rfl, by decide, by decide⟩
  intro ext url cs
  unfold blockBundle
  by_cases h1 : (matchesUrlPattern url cs.includeMatches
      && !matchesUrlPattern url cs.exclude_matches) = true
  · rw [if_pos h1]
    rw [Bool.and_eq_true, Bool.not_eq_true'] at h1
    by_cases h2 : (cs.js.filterMap (fun f => ext.readFile (joinPath ext.path f))).length > 0
        ∨ (cs.css.filterMap (fun f => ext.readFile (joinPath ext.path f))).length > 0
    · rw [if_pos (by simpa using h2)]
      simp only [Option.isSome_some, true_iff]
      exact ⟨h1.1, h1.2, by simpa [List.length_pos] using h2⟩
    · rw [if_neg (by simpa using h2)]
      simp only [Option.isSome_none, Bool.false_eq_true, false_iff]
      intro hcon
      exact h2 (by simpa [List.length_pos] using hcon.2.2)
  · rw [if_neg h1]
    simp only [Option.isSome_none, Bool.false_eq_true, false_iff]
    intro hcon
    rw [Bool.and_eq_true, Bool.not_eq_true'] at h1
    exact h1 ⟨hcon.1, hcon.2.1⟩

/-- C7 counterexample: a concrete magic-free byte buffer on which the
installer does not fail with an archive-corrupt error but hands the whole
buffer to the zip extractor. -/
theorem c7_counterexample :
    indexOfSeq zipMagic [0, 1, 2] = none
    ∧ crxZipPayload [0, 1, 2] = CrxOutcome.extractAttempt [0, 1, 2]
    ∧ crxZipPayload [0, 1, 2] ≠ CrxOutcome.archiveCorrupt := by
  decide

/-- C7 amended: the source performs no magic-presence check at all: on any
buffer in which the zip magic does not occur, `indexOf` yields `-1`, the
header-stripping branch is skipped, and the entire unmodified buffer is
passed to the zip library (whose own failure is caught and logged); no
`ArchiveCorrupt`-style outcome exists. -/
theorem c7_magic_free_goes_to_extractor :
    ∀ buf : List Nat, indexOfSeq zipMagic buf = none →
      crxZipPayload buf = CrxOutcome.extractAttempt buf
      ∧ crxZipPayload buf ≠ CrxOutcome.archiveCorrupt := by
  intro buf h
  have hext : crxZipPayload buf = CrxOutcome.extractAttempt buf := by
    unfold crxZipPayload
    rw [h]
    rfl
  refine ⟨hext, ?_⟩
  rw [hext]
  intro hc
  exact CrxOutcome.noConfusion hc

/-- Witness for C7 at a concrete magic-free buffer. -/
theorem c7_witness :
    crxZipPayload [9, 9] = CrxOutcome.extractAttempt [9, 9] :=
  (c7_magic_free_goes_to_extractor [9, 9] (by decide)).1

/-- C9: evaluation of `resolveExtensionIcon` at the failing inputs.  A
manifest whose `icons` object has a non-numeric key (`Number("abc")` is
`NaN`, and `icons["NaN"]` is `undefined`) or a non-string value makes
`iconRelPath.startsWith('/')` throw a `TypeError` before the `try` block —
contradicting the claim that icon resolution never throws — while the
documented fallbacks (no `icons` block, empty `icons` block) and the
largest-size happy path behave as specified. -/
theorem c9_icon_resolution_throws :
    resolveExtensionIcon "/ext" (some [("abc", IconVal.str "a.png")]) (fun _ => none) =
      Except.error ()
    ∧ resolveExtensionIcon "/ext" (some [("16", IconVal.nonstr)]) (fun _ => none) =
      Except.error ()
    ∧ resolveExtensionIcon "/ext" none (fun _ => none) = Except.ok ""
    ∧ resolveExtensionIcon "/ext" (some []) (fun _ => none) = Except.ok ""
    ∧ resolveExtensionIcon "/ext"
        (some [("16", IconVal.str "a.png"), ("128", IconVal.str "b.png")])
        (fun p => if p = "/ext/b.png" then some [1, 2, 3] else none) =
      Except.ok "data:image/png;base64,AQID" := by
  refine ⟨?_, ?_, ?_, ?_, ?_⟩ <;> rfl

end Solarium
